import Mathlib

/-!
Shallow embedding of `src/hll_implementation.py`, a HyperLogLog-based
distinct-substring counter.  Pure string/arithmetic functions are embedded
directly; Python float arithmetic is idealised as exact rational arithmetic
over `ℚ`, and a Python run-time failure (`ZeroDivisionError`) is embedded as
`Option.none` guarded at the exact program point where the division occurs.
The HyperLogLog sketch itself comes from the third-party `hyperloglog`
library (not part of this repository), so its state and operations are
modelled from the specification where a claim needs them.
-/

namespace HLL

/-! ## Line source: `read_file` -/

/-- The ASCII whitespace characters stripped by Python's `str.strip()`. -/
def pyIsSpace (c : Char) : Bool :=
  c == ' ' || c == '\t' || c == '\n' || c == '\r' ||
  c == Char.ofNat 11 || c == Char.ofNat 12

/-- Python's `str.strip()`: remove all leading and trailing whitespace. -/
def pyStrip (s : String) : String :=
  String.mk (((s.toList.dropWhile pyIsSpace).reverse.dropWhile pyIsSpace).reverse)

/-- Embedding of `read_file` (src/hll_implementation.py lines 10-25).
A file is modelled as the list of its raw lines, each still carrying its
trailing line terminator; iterating the file yields each raw line, and the
body applies `line.strip()` to it. -/
def read_file (file : List String) : List String :=
  file.map pyStrip

/-! ## Substring generator: `obtain_substrings` -/

/-- Python slice `line[j:i]` for `0 ≤ j ≤ i ≤ len line`. -/
def pySlice (line : String) (j i : ℕ) : String :=
  String.mk ((line.toList.drop j).take (i - j))

/-- Embedding of `obtain_substrings` (src/hll_implementation.py lines 28-41):
`for i in np.arange(1, size+1): for j in np.arange(0, i): yield line[j:i]`,
with `i = k+1` as `k` runs over `range size`. -/
def obtain_substrings (line : String) : List String :=
  (List.range line.length).flatMap (fun k =>
    (List.range (k + 1)).map (fun j => pySlice line j (k + 1)))

/-- The (start, end) index pairs in the exact order `obtain_substrings`
traverses them: all `(j, i)` with `0 ≤ j < i ≤ n`. -/
def substring_pairs (n : ℕ) : List (ℕ × ℕ) :=
  (List.range n).flatMap (fun k =>
    (List.range (k + 1)).map (fun j => (j, k + 1)))

/-- Embedding of `find_substrings_from_file` (lines 44-59): substrings of
every stripped line of the file, in file order. -/
def find_substrings_from_file (file : List String) : List String :=
  (read_file file).flatMap obtain_substrings

/-! ## Sketch model

Modelled from the spec: the `hyperloglog` library's sketch object is not part
of this repository.  Per the spec's data model, a sketch is a precision `p`
together with `m = 2^p` registers, each holding the largest 1-indexed
leading-set-bit rank seen among items hashed to it. -/

structure Sketch where
  p : ℕ
  registers : List ℕ
  deriving DecidableEq, Repr

/-- Modelled from the spec: 1-indexed rank of the leftmost set bit of a
`w`-bit value `v`, capped at `w + 1` (the cap is attained exactly at
`v = 0`, which has no set bit). -/
def rank (w v : ℕ) : ℕ :=
  w + 1 - Nat.size v

/-- Modelled from the spec: `add(item)` of the `hyperloglog` library (not in
this repository).  The item is hashed to a 64-bit value by the ambient hash
function `hash`; the low `p` bits select the register index `j`, the
remaining high bits are scanned for the leftmost set bit, and register `j`
is raised to the max of its value and that rank. -/
def Sketch.add (hash : String → ℕ) (s : Sketch) (x : String) : Sketch :=
  let h := hash x % 2 ^ 64
  let j := h % 2 ^ s.p
  let rest := h / 2 ^ s.p
  let r := rank (64 - s.p) rest
  { s with registers := s.registers.set j (max (s.registers.getD j 0) r) }

/-! ## Error metrics: `calculate_metrics` -/

/-- Embedding of `calculate_metrics` (src/hll_implementation.py lines
86-110).  `card` stands for `len(hll)`, the library's rounded cardinality
estimate.  The two divisions are guarded in the order the Python code
evaluates them (`lower_bound` before `upper_bound`); a zero denominator is a
`ZeroDivisionError`, embedded as `none`. -/
def calculate_metrics (card : ℕ) (relative_error : ℚ) :
    Option (ℚ × ℚ × ℚ × ℚ) :=
  let substrings : ℚ := card
  if 1 + relative_error = 0 then none
  else if 1 - relative_error = 0 then none
  else some (1 / (1 + relative_error) * substrings,
             substrings,
             1 / (1 - relative_error) * substrings,
             relative_error / (1 + relative_error) * substrings)

/-- State-threaded form of `calculate_metrics`: the body's only interaction
with the sketch is `len(hll)` (the library's read-only cardinality query,
modelled from the spec as a pure function `card` of the sketch state); the
sketch flows through unchanged alongside the returned quadruple. -/
def calculate_metricsS (card : Sketch → ℕ) (hll : Sketch) (relative_error : ℚ) :
    Option (ℚ × ℚ × ℚ × ℚ) × Sketch :=
  let n := card hll
  let hll1 := hll
  (calculate_metrics n relative_error, hll1)

/-! ## `create_hll`: items inserted into the sketch -/

/-- The sequence of items `create_hll` (lines 62-83) passes to `hll.add`, in
order: first the hard-coded `hll.add("")`, then every substring produced from
the file. -/
def create_hll_items (file : List String) : List String :=
  "" :: find_substrings_from_file file

/-! ## `__main__`: the combined report and the merge step -/

/-- Embedding of the `__main__` combination block (lines 147-151): given the
absolute errors unpacked from the two `calculate_metrics` calls and the
merged sketch's cardinality `len(hll_combined)`, report
`comb_abs_err = dk_abs_err + en_abs_err` and the bounds
`len ∓ comb_abs_err`. -/
def combined_report (nDk nEn nComb : ℕ) (relative_error : ℚ) :
    Option (ℚ × ℚ × ℚ × ℚ) :=
  match calculate_metrics nDk relative_error,
        calculate_metrics nEn relative_error with
  | some dkM, some enM =>
      let comb_abs_err := dkM.2.2.2 + enM.2.2.2
      some ((nComb : ℚ) - comb_abs_err, (nComb : ℚ),
            (nComb : ℚ) + comb_abs_err, comb_abs_err)
  | _, _ => none

/-- A heap of Python sketch objects, identified by index; each object's
state is its register array.  Used to state the aliasing behaviour of the
merge step in `__main__`. -/
structure PyHeap where
  objs : List (List ℕ)
  deriving DecidableEq, Repr

/-- `copy.deepcopy(o)`: allocate a fresh object whose state equals `o`'s,
and return its (new) identity. -/
def deepcopy (h : PyHeap) (i : ℕ) : PyHeap × ℕ :=
  (⟨h.objs ++ [h.objs.getD i []]⟩, h.objs.length)

/-- Modelled from the spec: `self.update(other)` of the `hyperloglog`
library (not in this repository) writes the element-wise maxima into the
receiver's registers and only reads `other`. -/
def hll_update (h : PyHeap) (self other : ℕ) : PyHeap :=
  ⟨h.objs.set self
    (List.zipWith max (h.objs.getD self []) (h.objs.getD other []))⟩

/-- Embedding of the merge step of `__main__` (lines 144-145):
`hll_combined = copy.deepcopy(hll_en)` then `hll_combined.update(hll_dk)`.
Returns the post-state heap and the identity of `hll_combined`. -/
def merge_step (h : PyHeap) (en dk : ℕ) : PyHeap × ℕ :=
  let (h1, comb) := deepcopy h en
  (hll_update h1 comb dk, comb)

/-! ## Helper lemmas -/

lemma mem_substring_pairs (n j i : ℕ) :
    (j, i) ∈ substring_pairs n ↔ j < i ∧ i ≤ n := by
  unfold substring_pairs
  rw [List.mem_flatMap]
  constructor
  · rintro ⟨k, hk, hmem⟩
    rw [List.mem_range] at hk
    rw [List.mem_map] at hmem
    obtain ⟨j0, hj0, heq⟩ := hmem
    rw [List.mem_range] at hj0
    cases heq
    omega
  · rintro ⟨hji, hin⟩
    refine ⟨i - 1, ?_, ?_⟩
    · rw [List.mem_range]; omega
    · rw [List.mem_map]
      refine ⟨j, ?_, ?_⟩
      · rw [List.mem_range]; omega
      · have h1 : i - 1 + 1 = i := by omega
        rw [h1]

lemma substring_pairs_nodup (n : ℕ) : (substring_pairs n).Nodup := by
  induction n with
  | zero => simp [substring_pairs]
  | succ m ih =>
    have hsplit : substring_pairs (m + 1) =
        substring_pairs m ++ (List.range (m + 1)).map (fun j => (j, m + 1)) := by
      unfold substring_pairs
      rw [List.range_succ, List.flatMap_append, List.flatMap_cons, List.flatMap_nil,
        List.append_nil, List.range_succ]
    rw [hsplit, List.nodup_append]
    refine ⟨ih, ?_, ?_⟩
    · exact List.Nodup.map (fun a b h => by injection h) (List.nodup_range _)
    · intro p hp1 hp2
      obtain ⟨a, b⟩ := p
      have hb : b ≤ m := ((mem_substring_pairs m a b).mp hp1).2
      rw [List.mem_map] at hp2
      obtain ⟨j0, _, heq⟩ := hp2
      cases heq
      omega

lemma obtain_substrings_eq_map (w : String) :
    obtain_substrings w = (substring_pairs w.length).map (fun p => pySlice w p.1 p.2) := by
  simp only [obtain_substrings, substring_pairs, List.map_flatMap, List.map_map]
  rfl

lemma length_obtain_substrings (w : String) :
    (obtain_substrings w).length = w.length * (w.length + 1) / 2 := by
  have key : ∀ n : ℕ,
      (((List.range n).flatMap (fun k =>
        (List.range (k + 1)).map (fun j => pySlice w j (k + 1)))).length) * 2 =
      n * (n + 1) := by
    intro n
    induction n with
    | zero => rfl
    | succ m ih =>
      rw [List.range_succ, List.flatMap_append, List.length_append]
      simp only [List.flatMap_cons, List.flatMap_nil, List.append_nil,
        List.length_map, List.length_range]
      nlinarith [ih]
  show (((List.range w.length).flatMap (fun k =>
      (List.range (k + 1)).map (fun j => pySlice w j (k + 1)))).length) =
    w.length * (w.length + 1) / 2
  rw [← key w.length]
  omega

lemma obtain_substrings_ne_empty {w s : String} (h : s ∈ obtain_substrings w) :
    s ≠ "" := by
  unfold obtain_substrings at h
  rw [List.mem_flatMap] at h
  obtain ⟨k, hk, hmem⟩ := h
  rw [List.mem_range] at hk
  rw [List.mem_map] at hmem
  obtain ⟨j, hj, heq⟩ := hmem
  rw [List.mem_range] at hj
  intro hempty
  rw [← heq] at hempty
  have hlen : ((w.toList.drop j).take (k + 1 - j)).length = 0 := by
    have h0 : (pySlice w j (k + 1)).length = ("" : String).length :=
      congrArg String.length hempty
    exact h0
  rw [List.length_take, List.length_drop] at hlen
  have hwl : w.toList.length = w.length := rfl
  rw [hwl] at hlen
  omega

lemma pySlice_full (w : String) : pySlice w 0 w.length = w := by
  show String.mk (w.toList.take w.toList.length) = w
  rw [List.take_length]
  rfl

lemma string_eq_empty_of_length {w : String} (h : w.length = 0) : w = "" := by
  have hl : w.data = [] := List.length_eq_zero.mp h
  show String.mk w.data = ""
  rw [hl]

/-! ## Claim theorems -/

/-- C1: for every sketch cardinality `n = len(hll)` and relative error `ε`
(whenever neither denominator vanishes), `calculate_metrics` returns the
quadruple `(n/(1+ε), n, n/(1-ε), ε/(1+ε)*n)`; in particular at `n = 1000`,
`ε = 0.01` the lower bound, upper bound and absolute error are within 0.01
of 990.1, 1010.1 and 9.9 respectively. -/
theorem calculate_metrics_formula (n : ℕ) (ε : ℚ)
    (h1 : 1 + ε ≠ 0) (h2 : 1 - ε ≠ 0) :
    calculate_metrics n ε =
      some ((n : ℚ) / (1 + ε), (n : ℚ), (n : ℚ) / (1 - ε), ε / (1 + ε) * n) ∧
    calculate_metrics 1000 (1 / 100) =
      some (100000 / 101, 1000, 100000 / 99, 1000 / 101) ∧
    |(100000 : ℚ) / 101 - 9901 / 10| < 1 / 100 ∧
    |(100000 : ℚ) / 99 - 10101 / 10| < 1 / 100 ∧
    |(1000 : ℚ) / 101 - 99 / 10| < 1 / 100 := by
  refine ⟨?_, by norm_num [calculate_metrics], ?_, ?_, ?_⟩
  · simp only [calculate_metrics, if_neg h1, if_neg h2, Option.some.injEq,
      Prod.mk.injEq]
    exact ⟨by ring, trivial, by ring, trivial⟩
  · rw [abs_sub_lt_iff]; constructor <;> norm_num
  · rw [abs_sub_lt_iff]; constructor <;> norm_num
  · rw [abs_sub_lt_iff]; constructor <;> norm_num

/-- Witness for C1: the theorem applied at `n = 1000`, `ε = 1/100`. -/
theorem calculate_metrics_formula_witness :
    calculate_metrics 1000 (1 / 100) =
      some (((1000 : ℕ) : ℚ) / (1 + 1 / 100), ((1000 : ℕ) : ℚ),
            ((1000 : ℕ) : ℚ) / (1 - 1 / 100), (1 / 100) / (1 + 1 / 100) * 1000) ∧
    calculate_metrics 1000 (1 / 100) =
      some (100000 / 101, 1000, 100000 / 99, 1000 / 101) ∧
    |(100000 : ℚ) / 101 - 9901 / 10| < 1 / 100 ∧
    |(100000 : ℚ) / 99 - 10101 / 10| < 1 / 100 ∧
    |(1000 : ℚ) / 101 - 99 / 10| < 1 / 100 :=
  calculate_metrics_formula 1000 (1 / 100) (by norm_num) (by norm_num)

/-- C3 counterexample: at `ε = 2 ≥ 1` the error-bound computation does not
fail at all — it returns a quadruple (with a negative upper bound) instead
of raising, contradicting the claim that every `ε ≥ 1` raises immediately. -/
theorem calculate_metrics_two_returns :
    (1 : ℚ) ≤ 2 ∧
    calculate_metrics 1000 2 = some (1000 / 3, 1000, -1000, 2000 / 3) := by
  constructor
  · norm_num
  · norm_num [calculate_metrics]

/-- C3 amended: for `ε ≥ 1`, the computation fails (a `ZeroDivisionError`
at the `upper_bound` division, not an `InvalidParameter` error) exactly when
`ε = 1`; for every `ε > 1` it completes and returns a quadruple. -/
theorem calculate_metrics_none_iff (n : ℕ) (ε : ℚ) (h : 1 ≤ ε) :
    calculate_metrics n ε = none ↔ ε = 1 := by
  unfold calculate_metrics
  have h1 : 1 + ε ≠ 0 := by intro h0; nlinarith
  rw [if_neg h1]
  by_cases h2 : (1 : ℚ) - ε = 0
  · rw [if_pos h2]
    constructor
    · intro _; linarith
    · intro _; rfl
  · rw [if_neg h2]
    constructor
    · intro hc; exact absurd hc (Option.some_ne_none _)
    · intro he; exact absurd (by rw [he]; norm_num) h2

/-- Witness for the amended C3: at `ε = 1` the computation does fail. -/
theorem calculate_metrics_none_iff_witness :
    calculate_metrics 1000 1 = none ↔ (1 : ℚ) = 1 :=
  calculate_metrics_none_iff 1000 1 (by norm_num)

/-- C4: whenever the two `calculate_metrics` calls return quadruples, the
combined report's absolute error is the sum of their absolute errors, and
its lower/upper bounds are the merged estimate minus/plus that sum. -/
theorem combined_report_sum (nDk nEn nComb : ℕ) (ε : ℚ) :
    ∀ dkM enM : ℚ × ℚ × ℚ × ℚ,
      calculate_metrics nDk ε = some dkM →
      calculate_metrics nEn ε = some enM →
      combined_report nDk nEn nComb ε =
        some ((nComb : ℚ) - (dkM.2.2.2 + enM.2.2.2), (nComb : ℚ),
              (nComb : ℚ) + (dkM.2.2.2 + enM.2.2.2), dkM.2.2.2 + enM.2.2.2) := by
  intro dkM enM hdk hen
  simp only [combined_report, hdk, hen]

/-- Witness for C4: the theorem applied to the two concrete
`calculate_metrics` outputs at `n = 1000`, `ε = 1/100`. -/
theorem combined_report_sum_witness :
    combined_report 1000 1000 1500 (1 / 100) =
      some (((1500 : ℕ) : ℚ) - ((1000 : ℚ) / 101 + (1000 : ℚ) / 101),
            ((1500 : ℕ) : ℚ),
            ((1500 : ℕ) : ℚ) + ((1000 : ℚ) / 101 + (1000 : ℚ) / 101),
            (1000 : ℚ) / 101 + (1000 : ℚ) / 101) :=
  combined_report_sum 1000 1000 1500 (1 / 100)
    (100000 / 101, 1000, 100000 / 99, 1000 / 101)
    (100000 / 101, 1000, 100000 / 99, 1000 / 101)
    (by norm_num [calculate_metrics]) (by norm_num [calculate_metrics])

/-- C10: for `0 < ε < 1` the metrics computation completes (both
denominators are nonzero) and its results are ordered:
`lower_bound ≤ estimate ≤ upper_bound` and `abs_error ≥ 0`. -/
theorem calculate_metrics_ordered (n : ℕ) (ε : ℚ) (h0 : 0 < ε) (h1 : ε < 1) :
    calculate_metrics n ε =
      some (1 / (1 + ε) * (n : ℚ), (n : ℚ), 1 / (1 - ε) * (n : ℚ),
            ε / (1 + ε) * (n : ℚ)) ∧
    1 / (1 + ε) * (n : ℚ) ≤ (n : ℚ) ∧
    (n : ℚ) ≤ 1 / (1 - ε) * (n : ℚ) ∧
    0 ≤ ε / (1 + ε) * (n : ℚ) := by
  have hp1 : (0 : ℚ) < 1 + ε := by linarith
  have hp2 : (0 : ℚ) < 1 - ε := by linarith
  have hn : (0 : ℚ) ≤ (n : ℚ) := Nat.cast_nonneg n
  refine ⟨?_, ?_, ?_, ?_⟩
  · simp only [calculate_metrics, if_neg (ne_of_gt hp1), if_neg (ne_of_gt hp2)]
  · have hle : 1 / (1 + ε) ≤ 1 := by
      rw [div_le_one hp1]; linarith
    nlinarith
  · have hge : 1 ≤ 1 / (1 - ε) := by
      rw [le_div_iff₀ hp2]; linarith
    nlinarith
  · exact mul_nonneg (div_nonneg h0.le hp1.le) hn

/-- Witness for C10: the theorem applied at `n = 1000`, `ε = 1/100`. -/
theorem calculate_metrics_ordered_witness :
    calculate_metrics 1000 (1 / 100) =
      some (1 / (1 + 1 / 100) * ((1000 : ℕ) : ℚ), ((1000 : ℕ) : ℚ),
            1 / (1 - 1 / 100) * ((1000 : ℕ) : ℚ),
            (1 / 100) / (1 + 1 / 100) * ((1000 : ℕ) : ℚ)) ∧
    1 / (1 + 1 / 100) * ((1000 : ℕ) : ℚ) ≤ ((1000 : ℕ) : ℚ) ∧
    ((1000 : ℕ) : ℚ) ≤ 1 / (1 - 1 / 100) * ((1000 : ℕ) : ℚ) ∧
    0 ≤ (1 / 100) / (1 + 1 / 100) * ((1000 : ℕ) : ℚ) :=
  calculate_metrics_ordered 1000 (1 / 100) (by norm_num) (by norm_num)

/-- C2: `obtain_substrings w` yields the slice `w[j:i]` for exactly the
index pairs `0 ≤ j < i ≤ |w|`, each distinct pair once (the pair list is
duplicate-free and exhaustive), every yielded string is non-empty, the word
itself is among them, and the total count is `|w|·(|w|+1)/2` — 6 for
"cat". -/
theorem obtain_substrings_complete :
    (∀ w : String, obtain_substrings w =
        (substring_pairs w.length).map (fun p => pySlice w p.1 p.2)) ∧
    (∀ n : ℕ, (substring_pairs n).Nodup) ∧
    (∀ n j i : ℕ, (j, i) ∈ substring_pairs n ↔ j < i ∧ i ≤ n) ∧
    (∀ w s : String, s ∈ obtain_substrings w → s ≠ "") ∧
    (∀ w : String, w ≠ "" → w ∈ obtain_substrings w) ∧
    (∀ w : String, (obtain_substrings w).length = w.length * (w.length + 1) / 2) ∧
    (obtain_substrings "cat").length = 6 := by
  refine ⟨obtain_substrings_eq_map, substring_pairs_nodup, mem_substring_pairs,
    fun w s h => obtain_substrings_ne_empty h, ?_, length_obtain_substrings, rfl⟩
  intro w hw
  have hl : 0 < w.length := by
    rcases Nat.eq_zero_or_pos w.length with h0 | h0
    · exact absurd (string_eq_empty_of_length h0) hw
    · exact h0
  rw [obtain_substrings_eq_map, List.mem_map]
  exact ⟨(0, w.length), (mem_substring_pairs w.length 0 w.length).mpr
    ⟨hl, le_refl _⟩, pySlice_full w⟩

/-- Witness for C2: the hypotheses are satisfiable — "cat" is a member of
its own substring list, and every member such as "ca" is non-empty. -/
theorem obtain_substrings_complete_witness :
    ("cat" : String) ∈ obtain_substrings "cat" ∧ ("ca" : String) ≠ "" :=
  ⟨obtain_substrings_complete.2.2.2.2.1 "cat" (by decide),
   obtain_substrings_complete.2.2.2.1 "cat" "ca" (by decide)⟩

/-- C5: the merge step of `__main__` operates on a deep copy of `hll_en`
and only reads `hll_dk`: after the step, the objects named by both inputs
are unchanged, and the combined sketch is a distinct object from both. -/
theorem merge_step_preserves_inputs (h : PyHeap) (en dk : ℕ)
    (hen : en < h.objs.length) (hdk : dk < h.objs.length) :
    (merge_step h en dk).1.objs.getD en [] = h.objs.getD en [] ∧
    (merge_step h en dk).1.objs.getD dk [] = h.objs.getD dk [] ∧
    (merge_step h en dk).2 ≠ en ∧ (merge_step h en dk).2 ≠ dk := by
  have main : ∀ i, i < h.objs.length →
      (merge_step h en dk).1.objs.getD i [] = h.objs.getD i [] := by
    intro i hi
    show ((h.objs ++ [h.objs.getD en []]).set h.objs.length
      (List.zipWith max
        ((h.objs ++ [h.objs.getD en []]).getD h.objs.length [])
        ((h.objs ++ [h.objs.getD en []]).getD dk []))).getD i [] =
      h.objs.getD i []
    rw [List.getD_eq_getElem?_getD, List.getElem?_set_ne (ne_of_gt hi),
      List.getElem?_append_left hi, ← List.getD_eq_getElem?_getD]
  exact ⟨main en hen, main dk hdk, ne_of_gt hen, ne_of_gt hdk⟩

/-- Witness for C5: the theorem applied to a concrete two-object heap. -/
theorem merge_step_preserves_inputs_witness :
    (merge_step ⟨[[1, 2], [3]]⟩ 0 1).1.objs.getD 0 [] =
      (PyHeap.mk [[1, 2], [3]]).objs.getD 0 [] ∧
    (merge_step ⟨[[1, 2], [3]]⟩ 0 1).1.objs.getD 1 [] =
      (PyHeap.mk [[1, 2], [3]]).objs.getD 1 [] ∧
    (merge_step ⟨[[1, 2], [3]]⟩ 0 1).2 ≠ 0 ∧
    (merge_step ⟨[[1, 2], [3]]⟩ 0 1).2 ≠ 1 :=
  merge_step_preserves_inputs ⟨[[1, 2], [3]]⟩ 0 1 (by decide) (by decide)

/-- C6 (code-bug evidence): on the raw line `" cat \n"`, `read_file` yields
`"cat"` — `line.strip()` removes the leading and trailing spaces along with
the newline — rather than `" cat "`, the line with only its terminator
removed, as the function's own docstring ("removing newline characters")
and the claim describe. -/
theorem read_file_strips_inner_whitespace :
    read_file [" cat \n"] = ["cat"] ∧ read_file [" cat \n"] ≠ [" cat "] := by
  constructor
  · rfl
  · decide

/-- C7: adding the same item twice is a no-op — the second `add` leaves the
sketch state, and hence any function of it such as `estimate`, unchanged.
Holds for every ambient hash function since the hash is deterministic. -/
theorem add_idempotent (hash : String → ℕ) (s : Sketch) (x : String) :
    (s.add hash x).add hash x = s.add hash x ∧
    ∀ est : Sketch → ℚ, est ((s.add hash x).add hash x) = est (s.add hash x) := by
  have key : ∀ (l : List ℕ) (j r : ℕ),
      (l.set j (max (l.getD j 0) r)).set j
        (max ((l.set j (max (l.getD j 0) r)).getD j 0) r) =
      l.set j (max (l.getD j 0) r) := by
    intro l j r
    by_cases hj : j < l.length
    · have hg : (l.set j (max (l.getD j 0) r)).getD j 0 = max (l.getD j 0) r := by
        rw [List.getD_eq_getElem?_getD, List.getElem?_set_self hj]
        rfl
      rw [hg, List.set_set, max_assoc, max_self]
    · push_neg at hj
      simp only [List.set_eq_of_length_le hj]
  have heq : (s.add hash x).add hash x = s.add hash x :=
    congrArg (Sketch.mk s.p)
      (key s.registers (hash x % 2 ^ 64 % 2 ^ s.p)
        (rank (64 - s.p) (hash x % 2 ^ 64 / 2 ^ s.p)))
  exact ⟨heq, fun est => congrArg est heq⟩

/-- C8: `calculate_metrics` is a read-only query — threading the sketch
through the call, the post-state equals the pre-state for every sketch,
every relative error, and every cardinality query the library provides. -/
theorem calculate_metricsS_read_only :
    ∀ (card : Sketch → ℕ) (hll : Sketch) (ε : ℚ),
      (calculate_metricsS card hll ε).2 = hll :=
  fun _ _ _ => rfl

/-- C9: `create_hll` first adds the empty string and only then the file's
substrings; the substring stream never contains the empty string, so the
distinct items inserted are exactly the file's substrings plus the one
extra item `""`, and even for an empty file the item list is non-empty. -/
theorem create_hll_adds_empty_string :
    (∀ file : List String, create_hll_items file =
        "" :: find_substrings_from_file file) ∧
    (∀ file : List String, "" ∉ find_substrings_from_file file) ∧
    (∀ file : List String, (create_hll_items file).toFinset =
        insert "" (find_substrings_from_file file).toFinset) ∧
    create_hll_items [] = [""] ∧
    (∀ file : List String, create_hll_items file ≠ []) := by
  refine ⟨fun _ => rfl, ?_, ?_, rfl, fun file => List.cons_ne_nil _ _⟩
  · intro file hmem
    unfold find_substrings_from_file at hmem
    rw [List.mem_flatMap] at hmem
    obtain ⟨line, _, hsub⟩ := hmem
    exact obtain_substrings_ne_empty hsub rfl
  · intro file
    simp [create_hll_items]

/-- Witness for C9: on a concrete one-word file, the empty string is not
among the generated substrings (only among the inserted items). -/
theorem create_hll_adds_empty_string_witness :
    ("" : String) ∉ find_substrings_from_file ["cat\n"] :=
  create_hll_adds_empty_string.2.1 ["cat\n"]

end HLL
